import Mathlib

/-!
Shallow embedding of the IBC transfer load tester
(cmd/tester/cmd/ibcmuilttransfer.go, together with the single-chain
transfer command of the same shape).  The embedding covers the per-block
broadcast fill loop, the uint64 account-sequence bookkeeping with its
mempool-saturation rollback, the height-drift correction, the
block-time retention map, the run-parameter parsing via strconv.Atoi,
the multi-chain command validation and fan-out, and the routing-table
lookup of DstChainsend.
-/

set_option autoImplicit false

namespace IBCTester

/-- Modulus of the Go uint64 type carrying the account sequence. -/
def U64 : Nat := 2 ^ 64

/-- uint64 increment, embedding the Go statement accSeq = accSeq + 1. -/
def wrapAdd1 (s : Nat) : Nat := (s + 1) % U64

/-- uint64 decrement, embedding the Go statement accSeq = accSeq - 1. -/
def wrapSub1 (s : Nat) : Nat := (s + (U64 - 1)) % U64

/-- One broadcast event: the sequence number the transaction was signed
with, paired with the application response code the node returned. -/
abbrev Ev := Nat × Nat

/-- Result of the inner broadcast loop of one block
(lines 248-267 of ibcmuilttransfer.go): the broadcast events in order,
the account sequence after the loop, the next global broadcast index,
the sent counter, whether the loop ended on the mempool-full break, and
how many mempool-full warnings were logged. -/
structure FillRes where
  evs : List Ev
  accSeq : Nat
  k : Nat
  sent : Nat
  sat : Bool
  warns : Nat
deriving DecidableEq

/-- Inner loop "for sent < txNum" of DstChainsend (lines 248-267):
sign with accSeq, broadcast (the response code of the j-th broadcast
overall is codes j), increment accSeq; on a non-zero response code equal
to 0x14 log a warning, decrement accSeq and break out of the labelled
loop; otherwise increment sent and continue.  The first argument after
codes is the remaining budget txNum - sent, which decreases by one per
completed broadcast. -/
def fillGo (codes : Nat → Nat) : Nat → Nat → Nat → FillRes
  | 0, accSeq, k => ⟨[], accSeq, k, 0, false, 0⟩
  | Nat.succ b, accSeq, k =>
    let c := codes k
    let accSeq1 := wrapAdd1 accSeq
    if c ≠ 0 then
      if c = 0x14 then
        ⟨[(accSeq, c)], wrapSub1 accSeq1, k + 1, 0, true, 1⟩
      else
        let r := fillGo codes b accSeq1 (k + 1)
        ⟨(accSeq, c) :: r.evs, r.accSeq, r.k, r.sent + 1, r.sat, r.warns⟩
    else
      let r := fillGo codes b accSeq1 (k + 1)
      ⟨(accSeq, c) :: r.evs, r.accSeq, r.k, r.sent + 1, r.sat, r.warns⟩

/-- Modelled from the spec, section 6: the payload built by the external
collaborator tx.CreateTransferBot is abstracted as the record of the
arguments DstChainsend passes to it (source port, source channel,
receiver, messages per transaction); the collaborator itself is not
under src/. -/
structure Payload where
  srcPort : String
  srcChannel : String
  receiver : String
  msgNum : Int
deriving DecidableEq

/-- Result of one whole per-block fill (both nested loops, lines
242-268): broadcast events, account sequence, next broadcast index,
sent counter, saturation flag, warning count, and the list of payloads
built by the outer loop, in order. -/
structure BlockRes where
  evs : List Ev
  accSeq : Nat
  k : Nat
  sent : Nat
  sat : Bool
  warns : Nat
  payloads : List Payload
deriving DecidableEq

/-- Outer loop "loop: for sent < txNum" of DstChainsend (lines
242-268): while the budget is positive, build one payload, then run the
inner broadcast loop; the labelled break of the inner loop on mempool
saturation exits this loop as well.  The fuel argument only bounds the
recursion; fillBlock supplies enough fuel that it never runs out. -/
def fillOuterGo (codes : Nat → Nat) (pl : Payload) : Nat → Nat → Nat → Nat → BlockRes
  | 0, _, accSeq, k => ⟨[], accSeq, k, 0, false, 0, []⟩
  | Nat.succ fuel, budget, accSeq, k =>
    if budget = 0 then ⟨[], accSeq, k, 0, false, 0, []⟩
    else
      let r := fillGo codes budget accSeq k
      if r.sat then ⟨r.evs, r.accSeq, r.k, r.sent, r.sat, r.warns, [pl]⟩
      else
        let rest := fillOuterGo codes pl fuel (budget - r.sent) r.accSeq r.k
        ⟨r.evs ++ rest.evs, rest.accSeq, rest.k, r.sent + rest.sent, rest.sat,
          r.warns + rest.warns, pl :: rest.payloads⟩

/-- The per-block fill of DstChainsend run with budget txNum, the
fillBlock(targetCount, msgsPerTx) operation of the spec. -/
def fillBlock (codes : Nat → Nat) (pl : Payload) (txNum accSeq k : Nat) : BlockRes :=
  fillOuterGo codes pl (txNum + 1) txNum accSeq k

/-- Value of a decimal digit character, none for a non-digit. -/
def digitVal (c : Char) : Option Nat :=
  if ('0' ≤ c ∧ c ≤ '9') then some (c.toNat - Char.toNat '0') else none

/-- Accumulate a decimal value over a character list; none as soon as a
non-digit appears. -/
def digitsVal (cs : List Char) : Option Nat :=
  cs.foldl
    (fun acc c =>
      match acc, digitVal c with
      | some v, some d => some (v * 10 + d)
      | _, _ => none)
    (some 0)

/-- Embedding of Go strconv.Atoi: an optional single + or - sign, then
at least one decimal digit, no other characters, and the value must fit
in a 64-bit int. -/
def atoi (s : String) : Option Int :=
  match s.data with
  | [] => none
  | '+' :: rest =>
    if rest = [] then none
    else
      match digitsVal rest with
      | none => none
      | some v => if v ≤ 2 ^ 63 - 1 then some (Int.ofNat v) else none
  | '-' :: rest =>
    if rest = [] then none
    else
      match digitsVal rest with
      | none => none
      | some v => if v ≤ 2 ^ 63 then some (- Int.ofNat v) else none
  | cs =>
    match digitsVal cs with
    | none => none
    | some v => if v ≤ 2 ^ 63 - 1 then some (Int.ofNat v) else none

/-- Association-list lookup, embedding a read of the Go map blockTimes. -/
def lookupA (key : Int) : List (Int × Int) → Option Int
  | [] => none
  | (k, v) :: rest => if k = key then some v else lookupA key rest

/-- Association-list removal, embedding delete(blockTimes, key). -/
def eraseA (key : Int) : List (Int × Int) → List (Int × Int)
  | [] => []
  | (k, v) :: rest => if k = key then eraseA key rest else (k, v) :: eraseA key rest

/-- Association-list overwrite, embedding blockTimes[key] = v. -/
def insertA (key v : Int) (m : List (Int × Int)) : List (Int × Int) :=
  (key, v) :: eraseA key m

/-- State of the per-chain send loop of DstChainsend (lines 230-297):
loop counter i, the target height, the account sequence, the global
broadcast index, the blockTimes map, the number of mismatching-height
warnings logged, and accumulated observables: the target height filled
at each iteration, all broadcast events, the per-block sent counts, and
all payloads built. -/
structure LoopState where
  i : Nat
  targetHeight : Int
  accSeq : Nat
  k : Nat
  blockTimes : List (Int × Int)
  driftWarns : Nat
  heights : List Int
  evs : List Ev
  sents : List Nat
  payloads : List Payload
deriving DecidableEq

/-- One iteration of the block loop of DstChainsend (lines 230-297):
query the current height (obs s.i), on drift log a warning and reset the
target to observed + 1, fill the block, then look up the previous target
height in blockTimes, delete it when found, store the fetched block time
(btime h is the block time of height h), and advance the target height
by one. -/
def stepBlock (codes : Nat → Nat) (pl : Payload) (txNum : Nat)
    (obs : Nat → Int) (btime : Int → Int) (s : LoopState) : LoopState :=
  let h := obs s.i
  let t := if h ≠ s.targetHeight - 1 then h + 1 else s.targetHeight
  let dw := if h ≠ s.targetHeight - 1 then s.driftWarns + 1 else s.driftWarns
  let r := fillBlock codes pl txNum s.accSeq s.k
  let m1 :=
    match lookupA (t - 1) s.blockTimes with
    | some _ => eraseA (t - 1) s.blockTimes
    | none => s.blockTimes
  let m2 := insertA t (btime t) m1
  ⟨s.i + 1, t + 1, r.accSeq, r.k, m2, dw,
    s.heights ++ [t], s.evs ++ r.evs, s.sents ++ [r.sent], s.payloads ++ r.payloads⟩

/-- n iterations of the block loop; the state after iteration n is
stepBlock applied to the state after iteration n - 1. -/
def runLoop (codes : Nat → Nat) (pl : Payload) (txNum : Nat)
    (obs : Nat → Int) (btime : Int → Int) : Nat → LoopState → LoopState
  | 0, s => s
  | Nat.succ n, s =>
    stepBlock codes pl txNum obs btime (runLoop codes pl txNum obs btime n s)

/-- State at entry of the block loop: loop counter 0, target height
equal to the starting height, the account sequence fetched from the
chain, empty blockTimes, nothing logged or broadcast yet. -/
def initState (t0 : Int) (a0 : Nat) : LoopState :=
  ⟨0, t0, a0, 0, [], 0, [], [], [], []⟩

/-- All broadcast events of a run started from initState. -/
def runEvs (codes : Nat → Nat) (pl : Payload) (txNum : Nat)
    (obs : Nat → Int) (btime : Int → Int) (n : Nat) (t0 : Int) (a0 : Nat) : List Ev :=
  (runLoop codes pl txNum obs btime n (initState t0 a0)).evs

/-- A channel entry of the routing table returned by
grpc.AllChainsTrace: the counterparty chain id and the local channel. -/
structure OpenChannel where
  clientChainId : String
  channelId : String
deriving DecidableEq

/-- Routing lookup of DstChainsend (lines 165-176): scan
mainchainibcinfo for the first entry whose client chain id equals the
destination chain id; on a match set port "transfer", the entry's
channel and the destination address; otherwise all three variables keep
their zero value, the empty string. -/
def routeLookup (dstId dstAddr : String) : List OpenChannel → String × String × String
  | [] => ((""), (""), (""))
  | i :: rest =>
    if dstId = i.clientChainId then (("transfer"), i.channelId, dstAddr)
    else routeLookup dstId dstAddr rest

/-- Whether an Except value is a success. -/
def exceptOk {ε α : Type} : Except ε α → Bool
  | Except.ok _ => true
  | Except.error _ => false

/-- Embedding of DstChainsend (lines 159-298) at the granularity the
claims need: the routing lookup, then the three strconv.Atoi parses of
blocks, tx-num and msg-num, each failing the command before the send
loop runs, then the block loop run for blocks iterations with txNum as
the per-block budget (a negative count behaves as zero, as the Go
counting loops do).  External collaborators (coin parsing, key
recovery, transaction building and signing, RPC transport) are modelled
as succeeding, per spec section 6. -/
def DstChainsend (info : List OpenChannel) (dstId dstAddr : String)
    (blocksStr txNumStr msgNumStr : String) (codes : Nat → Nat)
    (obs : Nat → Int) (btime : Int → Int) (a0 : Nat) (t0 : Int) :
    Except String LoopState :=
  let route := routeLookup dstId dstAddr info
  match atoi blocksStr with
  | none => Except.error ("blocks must be integer")
  | some blocks =>
    match atoi txNumStr with
    | none => Except.error ("txNum must be integer")
    | some txNum =>
      match atoi msgNumStr with
      | none => Except.error ("txNum must be integer")
      | some msgNum =>
        let pl : Payload := ⟨route.1, route.2.1, route.2.2, msgNum⟩
        Except.ok (runLoop codes pl txNum.toNat obs btime blocks.toNat (initState t0 a0))

/-- The two configuration fields the multi-chain command validation
reads: the configured chain ids and the mnemonic list. -/
structure MuiltConfig where
  chains : List String
  mnemonics : List String
deriving DecidableEq

/-- Embedding of Go strings.Split(s, ",") over the character list:
cut at every comma; the empty string yields one empty field. -/
def splitCommaAux : List Char → List Char → List String
  | [], acc => [String.mk acc.reverse]
  | c :: rest, acc =>
    if c = ',' then String.mk acc.reverse :: splitCommaAux rest []
    else splitCommaAux rest (c :: acc)

/-- strings.Split(s, ",") as used on the src-chains and dst-chains
arguments. -/
def splitComma (s : String) : List String := splitCommaAux s.data []

/-- The flag loop of IBCMuiltTransferCmd (lines 62-69 and 77-84): set
flag, break on a matching chain id, otherwise clear flag and continue;
the flag ends up true exactly when some configured chain id matches. -/
def findChainFlag (name : String) : List String → Bool
  | [] => false
  | c :: rest => if c = name then true else findChainFlag name rest

/-- Embedding of the validation prefix of IBCMuiltTransferCmd (lines
60-101): split the source and destination arguments on commas, fail if
some source chain is not configured, then if some destination chain is
not configured, then if there are more destination chains than
mnemonics; otherwise proceed, spawning one SrcChainsend task per source
chain (the ok value lists the spawned source chains and the destination
list each task receives). -/
def IBCMuiltTransferCmd (cfg : MuiltConfig) (srcArg dstArg : String) :
    Except String (List String × List String) :=
  let srcchains := splitComma srcArg
  if srcchains.all (fun s => findChainFlag s cfg.chains) = false then
    Except.error ("the entered src chains does not exist in config")
  else
    let dstchains := splitComma dstArg
    if dstchains.all (fun s => findChainFlag s cfg.chains) = false then
      Except.error ("the entered dst chains does not exist in config")
    else if dstchains.length > cfg.mnemonics.length then
      Except.error ("the number of ibcconfig and mnemics is different")
    else
      Except.ok (srcchains, dstchains)

/-- Inner scan of the subchain loop of SrcChainsend (lines 124-132):
walk the configured chains; at each entry first break without adding
when the destination equals the source chain id, else add and break on
a matching id. -/
def scanSub (mainId name : String) : List String → Option String
  | [] => none
  | c :: rest =>
    if name = mainId then none
    else if c = name then some name
    else scanSub mainId name rest

/-- Subchain list of SrcChainsend (lines 123-133): the destination
chains kept, in order, by the scan above. -/
def buildSubchains (cfgChains : List String) (mainId : String) : List String → List String
  | [] => []
  | d :: rest =>
    match scanSub mainId d cfgChains with
    | some c => c :: buildSubchains cfgChains mainId rest
    | none => buildSubchains cfgChains mainId rest

/-- The DstChainsend tasks SrcChainsend spawns (lines 148-154): one per
subchain entry, with accountindex equal to the entry's position in the
subchain list; the task at index j signs with mnemonic j. -/
def spawnedTasks (cfgChains : List String) (mainId : String) (dstchains : List String) :
    List (Nat × String) :=
  (buildSubchains cfgChains mainId dstchains).enum

theorem U64_pos : 0 < U64 := by norm_num [U64]

theorem wrapAdd1_lt (s : Nat) : wrapAdd1 s < U64 := Nat.mod_lt _ U64_pos

theorem wrapSub1_wrapAdd1 (s : Nat) (h : s < U64) : wrapSub1 (wrapAdd1 s) = s := by
  have hU : U64 = 18446744073709551616 := by norm_num [U64]
  simp only [wrapAdd1, wrapSub1, hU] at *
  omega

theorem fillGo_zero (codes : Nat → Nat) (a k : Nat) :
    fillGo codes 0 a k = ⟨[], a, k, 0, false, 0⟩ := rfl

theorem fillGo_succ_sat (codes : Nat → Nat) (b a k : Nat) (h : codes k = 0x14) :
    fillGo codes (b + 1) a k =
      ⟨[(a, codes k)], wrapSub1 (wrapAdd1 a), k + 1, 0, true, 1⟩ := by
  simp [fillGo, h]

theorem fillGo_succ_cont (codes : Nat → Nat) (b a k : Nat) (h : codes k ≠ 0x14) :
    fillGo codes (b + 1) a k =
      ⟨(a, codes k) :: (fillGo codes b (wrapAdd1 a) (k + 1)).evs,
        (fillGo codes b (wrapAdd1 a) (k + 1)).accSeq,
        (fillGo codes b (wrapAdd1 a) (k + 1)).k,
        (fillGo codes b (wrapAdd1 a) (k + 1)).sent + 1,
        (fillGo codes b (wrapAdd1 a) (k + 1)).sat,
        (fillGo codes b (wrapAdd1 a) (k + 1)).warns⟩ := by
  by_cases h0 : codes k = 0
  · simp [fillGo, h0]
  · simp [fillGo, h0, h]

theorem fillGo_sent_le (codes : Nat → Nat) :
    ∀ b a k : Nat, (fillGo codes b a k).sent ≤ b := by
  intro b
  induction b with
  | zero => intro a k; simp [fillGo_zero]
  | succ b ih =>
    intro a k
    by_cases h : codes k = 0x14
    · rw [fillGo_succ_sat codes b a k h]
      exact Nat.zero_le _
    · rw [fillGo_succ_cont codes b a k h]
      have := ih (wrapAdd1 a) (k + 1)
      dsimp only
      omega

theorem fillGo_sent_eq_of_not_sat (codes : Nat → Nat) :
    ∀ b a k : Nat, (fillGo codes b a k).sat = false → (fillGo codes b a k).sent = b := by
  intro b
  induction b with
  | zero => intro a k _; simp [fillGo_zero]
  | succ b ih =>
    intro a k hs
    by_cases h : codes k = 0x14
    · rw [fillGo_succ_sat codes b a k h] at hs
      simp at hs
    · rw [fillGo_succ_cont codes b a k h] at hs ⊢
      dsimp only at hs ⊢
      rw [ih (wrapAdd1 a) (k + 1) hs]

theorem fillGo_sent_lt_of_sat (codes : Nat → Nat) :
    ∀ b a k : Nat, (fillGo codes b a k).sat = true → (fillGo codes b a k).sent < b := by
  intro b
  induction b with
  | zero => intro a k hs; simp [fillGo_zero] at hs
  | succ b ih =>
    intro a k hs
    by_cases h : codes k = 0x14
    · rw [fillGo_succ_sat codes b a k h]
      exact Nat.succ_pos b
    · rw [fillGo_succ_cont codes b a k h] at hs ⊢
      dsimp only at hs ⊢
      have := ih (wrapAdd1 a) (k + 1) hs
      omega

theorem fillGo_len (codes : Nat → Nat) :
    ∀ b a k : Nat,
      (fillGo codes b a k).evs.length =
        (fillGo codes b a k).sent + (if (fillGo codes b a k).sat = true then 1 else 0) := by
  intro b
  induction b with
  | zero => intro a k; simp [fillGo_zero]
  | succ b ih =>
    intro a k
    by_cases h : codes k = 0x14
    · rw [fillGo_succ_sat codes b a k h]
      simp
    · rw [fillGo_succ_cont codes b a k h]
      have := ih (wrapAdd1 a) (k + 1)
      dsimp only
      simp only [List.length_cons]
      omega

theorem fillGo_sat_iff (codes : Nat → Nat) :
    ∀ b a k : Nat,
      (fillGo codes b a k).sat = true ↔ ∃ e ∈ (fillGo codes b a k).evs, e.2 = 0x14 := by
  intro b
  induction b with
  | zero => intro a k; simp [fillGo_zero]
  | succ b ih =>
    intro a k
    by_cases h : codes k = 0x14
    · rw [fillGo_succ_sat codes b a k h]
      simp [h]
    · rw [fillGo_succ_cont codes b a k h]
      have := ih (wrapAdd1 a) (k + 1)
      dsimp only
      simp only [List.mem_cons]
      constructor
      · intro hs
        rcases this.mp hs with ⟨e, he, he2⟩
        exact ⟨e, Or.inr he, he2⟩
      · rintro ⟨e, he | he, he2⟩
        · rw [he] at he2
          exact absurd he2 h
        · exact this.mpr ⟨e, he, he2⟩

theorem fillGo_last_of_sat (codes : Nat → Nat) :
    ∀ b a k : Nat, (fillGo codes b a k).sat = true →
      ∀ e ∈ (fillGo codes b a k).evs.getLast?, e.2 = 0x14 := by
  intro b
  induction b with
  | zero => intro a k hs; simp [fillGo_zero] at hs
  | succ b ih =>
    intro a k hs
    by_cases h : codes k = 0x14
    · rw [fillGo_succ_sat codes b a k h]
      simp [h]
    · rw [fillGo_succ_cont codes b a k h] at hs ⊢
      dsimp only at hs ⊢
      have hlen := fillGo_len codes b (wrapAdd1 a) (k + 1)
      rw [hs] at hlen
      simp only [if_pos rfl] at hlen
      cases hrest : (fillGo codes b (wrapAdd1 a) (k + 1)).evs with
      | nil => rw [hrest] at hlen; simp at hlen
      | cons e0 rest =>
        intro e he
        rw [List.getLast?_cons_cons] at he
        have := ih (wrapAdd1 a) (k + 1) hs
        rw [hrest] at this
        exact this e he

theorem fillBlock_eq (codes : Nat → Nat) (pl : Payload) (b a k : Nat) :
    fillBlock codes pl b a k =
      ⟨(fillGo codes b a k).evs, (fillGo codes b a k).accSeq, (fillGo codes b a k).k,
        (fillGo codes b a k).sent, (fillGo codes b a k).sat, (fillGo codes b a k).warns,
        if b = 0 then [] else [pl]⟩ := by
  cases b with
  | zero => simp [fillBlock, fillOuterGo, fillGo_zero]
  | succ b =>
    show fillOuterGo codes pl (b + 1 + 1) (b + 1) a k = _
    by_cases hsat : (fillGo codes (b + 1) a k).sat = true
    · simp only [fillOuterGo, if_neg (Nat.succ_ne_zero b), hsat, if_pos, if_neg (Nat.succ_ne_zero b)]
    · have hb : (fillGo codes (b + 1) a k).sat = false := by
        cases hx : (fillGo codes (b + 1) a k).sat
        · rfl
        · exact absurd hx hsat
      have hsent := fillGo_sent_eq_of_not_sat codes (b + 1) a k hb
      simp only [fillOuterGo, if_neg (Nat.succ_ne_zero b)]
      rw [hb]
      simp only [Bool.false_eq_true, if_false, hsent, Nat.sub_self]
      show (⟨(fillGo codes (b + 1) a k).evs ++ (fillOuterGo codes pl (b + 1) 0
          (fillGo codes (b + 1) a k).accSeq (fillGo codes (b + 1) a k).k).evs, _, _, _, _, _, _⟩ :
          BlockRes) = _
      simp only [fillOuterGo, if_pos rfl]
      simp [hb]

/-- The sequence number the broadcast after event e will sign with: the
same one after a mempool-saturation rollback, the incremented one
otherwise. -/
def nextOf (e : Ev) : Nat := if e.2 = 0x14 then e.1 else wrapAdd1 e.1

/-- The event list obeys the sequence-reservation discipline: every
event signs with the sequence the previous event left behind. -/
def SeqChained : List Ev → Prop
  | [] => True
  | [_] => True
  | e1 :: e2 :: rest => e2.1 = nextOf e1 ∧ SeqChained (e2 :: rest)

/-- The sequence number available after the events evs, when a was
available before them. -/
def nextExpected (a : Nat) : List Ev → Nat
  | [] => a
  | e :: rest => nextExpected (nextOf e) rest

theorem SeqChained_cons (x : Ev) (l : List Ev) :
    SeqChained (x :: l) ↔ (∀ e ∈ l.head?, e.1 = nextOf x) ∧ SeqChained l := by
  cases l with
  | nil => simp [SeqChained]
  | cons y rest => simp [SeqChained, Option.mem_def, and_comm]

theorem nextExpected_append (a : Nat) (xs ys : List Ev) :
    nextExpected a (xs ++ ys) = nextExpected (nextExpected a xs) ys := by
  induction xs generalizing a with
  | nil => rfl
  | cons x xs ih => simp [nextExpected, ih]

theorem SeqChained_append (xs ys : List Ev) (a : Nat) (hxs : SeqChained xs)
    (hys : SeqChained ys) (hlink : ∀ e ∈ ys.head?, e.1 = nextExpected a xs) :
    SeqChained (xs ++ ys) := by
  induction xs generalizing a with
  | nil => exact hys
  | cons x xs ih =>
    rw [SeqChained_cons] at hxs
    rw [List.cons_append, SeqChained_cons]
    refine ⟨?_, ih (nextOf x) hxs.2 (fun e he => hlink e he)⟩
    intro e he
    cases xs with
    | nil =>
      simp only [List.nil_append] at he
      have := hlink e he
      simpa [nextExpected] using this
    | cons x2 rest =>
      simp only [List.cons_append, List.head?_cons, Option.mem_def, Option.some.injEq] at he
      rw [← he]
      exact hxs.1 x2 rfl

theorem SeqChained_get (l : List Ev) (hch : SeqChained l) :
    ∀ (i : Nat) (h1 : i < l.length) (h2 : i + 1 < l.length),
      (l.get ⟨i + 1, h2⟩).1 = nextOf (l.get ⟨i, h1⟩) := by
  induction l with
  | nil => intro i h1 h2; simp at h1
  | cons x l ih =>
    intro i h1 h2
    cases l with
    | nil => simp at h2
    | cons y rest =>
      cases i with
      | zero => exact hch.1
      | succ j =>
        exact ih hch.2 j (Nat.lt_of_succ_lt_succ h1) (Nat.lt_of_succ_lt_succ h2)

theorem fillGo_chain (codes : Nat → Nat) :
    ∀ b a k : Nat, a < U64 →
      SeqChained (fillGo codes b a k).evs
      ∧ (fillGo codes b a k).accSeq = nextExpected a (fillGo codes b a k).evs
      ∧ (fillGo codes b a k).accSeq < U64
      ∧ ∀ e ∈ (fillGo codes b a k).evs.head?, e.1 = a := by
  intro b
  induction b with
  | zero =>
    intro a k ha
    rw [fillGo_zero]
    exact ⟨trivial, rfl, ha, by simp⟩
  | succ b ih =>
    intro a k ha
    by_cases h : codes k = 0x14
    · rw [fillGo_succ_sat codes b a k h]
      refine ⟨trivial, ?_, ?_, ?_⟩
      · dsimp only
        rw [wrapSub1_wrapAdd1 a ha]
        simp [nextExpected, nextOf, h]
      · dsimp only
        rw [wrapSub1_wrapAdd1 a ha]
        exact ha
      · dsimp only
        simp
    · rw [fillGo_succ_cont codes b a k h]
      obtain ⟨hch, hacc, hlt, hhead⟩ := ih (wrapAdd1 a) (k + 1) (wrapAdd1_lt a)
      refine ⟨?_, ?_, hlt, ?_⟩
      · rw [SeqChained_cons]
        refine ⟨?_, hch⟩
        intro e he
        rw [hhead e he]
        simp [nextOf, h]
      · dsimp only
        rw [hacc]
        simp [nextExpected, nextOf, h]
      · dsimp only
        simp

theorem runLoop_chain (codes : Nat → Nat) (pl : Payload) (txNum : Nat)
    (obs : Nat → Int) (btime : Int → Int) (t0 : Int) (a0 : Nat) (ha : a0 < U64) :
    ∀ n : Nat,
      SeqChained (runLoop codes pl txNum obs btime n (initState t0 a0)).evs
      ∧ (runLoop codes pl txNum obs btime n (initState t0 a0)).accSeq
          = nextExpected a0 (runLoop codes pl txNum obs btime n (initState t0 a0)).evs
      ∧ (runLoop codes pl txNum obs btime n (initState t0 a0)).accSeq < U64 := by
  intro n
  induction n with
  | zero => exact ⟨trivial, rfl, ha⟩
  | succ n ih =>
    obtain ⟨hch, hacc, hlt⟩ := ih
    set s := runLoop codes pl txNum obs btime n (initState t0 a0) with hs
    have hevs : (runLoop codes pl txNum obs btime (n + 1) (initState t0 a0)).evs
        = s.evs ++ (fillBlock codes pl txNum s.accSeq s.k).evs := rfl
    have haccs : (runLoop codes pl txNum obs btime (n + 1) (initState t0 a0)).accSeq
        = (fillBlock codes pl txNum s.accSeq s.k).accSeq := rfl
    have hfb := fillBlock_eq codes pl txNum s.accSeq s.k
    obtain ⟨fch, facc, flt, fhead⟩ := fillGo_chain codes txNum s.accSeq s.k hlt
    refine ⟨?_, ?_, ?_⟩
    · rw [hevs, hfb]
      exact SeqChained_append _ _ a0 hch fch (fun e he => by rw [fhead e he, hacc])
    · rw [hevs, haccs, hfb]
      dsimp only
      rw [nextExpected_append, ← hacc, facc]
    · rw [haccs, hfb]
      exact flt

/-- Claim C1: within one send loop, the sequence used to sign broadcast
i equals the sequence used for broadcast i - 1 plus one (in uint64
arithmetic), whatever the response code of broadcast i - 1 was, except
when broadcast i - 1 was rejected with the mempool-saturation code 0x14,
in which case the sequence was rolled back by one and broadcast i
reuses the rejected sequence number. -/
theorem C1_sequence_reservation (codes : Nat → Nat) (pl : Payload) (txNum : Nat)
    (obs : Nat → Int) (btime : Int → Int) (n : Nat) (t0 : Int) (a0 : Nat)
    (ha : a0 < U64) (i : Nat)
    (h1 : i < (runEvs codes pl txNum obs btime n t0 a0).length)
    (h2 : i + 1 < (runEvs codes pl txNum obs btime n t0 a0).length) :
    (((runEvs codes pl txNum obs btime n t0 a0).get ⟨i, h1⟩).2 = 0x14 →
        ((runEvs codes pl txNum obs btime n t0 a0).get ⟨i + 1, h2⟩).1
          = ((runEvs codes pl txNum obs btime n t0 a0).get ⟨i, h1⟩).1)
    ∧ (((runEvs codes pl txNum obs btime n t0 a0).get ⟨i, h1⟩).2 ≠ 0x14 →
        ((runEvs codes pl txNum obs btime n t0 a0).get ⟨i + 1, h2⟩).1
          = (((runEvs codes pl txNum obs btime n t0 a0).get ⟨i, h1⟩).1 + 1) % 2 ^ 64) := by
  have hch : SeqChained (runEvs codes pl txNum obs btime n t0 a0) :=
    (runLoop_chain codes pl txNum obs btime t0 a0 ha n).1
  have hg := SeqChained_get _ hch i h1 h2
  constructor
  · intro hc
    rw [hg, nextOf, if_pos hc]
  · intro hc
    rw [hg, nextOf, if_neg hc]
    rfl

/-- Response-code stream with a mempool-saturation rejection on the
very first broadcast and success afterwards. -/
def codesW1 : Nat → Nat := fun j => if j = 0 then 0x14 else 0

/-- A fixed payload used by concrete instances. -/
def plW : Payload := ⟨(""), (""), (""), 1⟩

theorem C1_sequence_reservation_witness :
    ((runEvs codesW1 plW 2 (fun _ => 0) (fun _ => 0) 2 10 5).get ⟨1, by decide⟩).1
      = ((runEvs codesW1 plW 2 (fun _ => 0) (fun _ => 0) 2 10 5).get ⟨0, by decide⟩).1
    ∧ ((runEvs codesW1 plW 2 (fun _ => 0) (fun _ => 0) 2 10 5).get ⟨2, by decide⟩).1
      = (((runEvs codesW1 plW 2 (fun _ => 0) (fun _ => 0) 2 10 5).get ⟨1, by decide⟩).1 + 1)
          % 2 ^ 64 :=
  ⟨(C1_sequence_reservation codesW1 plW 2 (fun _ => 0) (fun _ => 0) 2 10 5 (by decide) 0
      (by decide) (by decide)).1 (by decide),
    (C1_sequence_reservation codesW1 plW 2 (fun _ => 0) (fun _ => 0) 2 10 5 (by decide) 1
      (by decide) (by decide)).2 (by decide)⟩

/-- Claim C2: the per-block fill ends with sent less than or equal to
txNum; sent equals txNum exactly when no broadcast of the block was
rejected with the mempool-saturation code 0x14; on a saturation
rejection, sent counts exactly the broadcasts before the rejected one
(the rejected broadcast, the last one of the block, is not counted) and
the block is filled with fewer than txNum transactions. -/
theorem C2_fillBlock_sent (codes : Nat → Nat) (pl : Payload) (txNum a k : Nat) :
    (fillBlock codes pl txNum a k).sent ≤ txNum
    ∧ ((fillBlock codes pl txNum a k).sent = txNum ↔
        ∀ e ∈ (fillBlock codes pl txNum a k).evs, e.2 ≠ 0x14)
    ∧ ((fillBlock codes pl txNum a k).sat = true →
        (fillBlock codes pl txNum a k).sent + 1 = (fillBlock codes pl txNum a k).evs.length
        ∧ (fillBlock codes pl txNum a k).sent < txNum
        ∧ ∀ e ∈ (fillBlock codes pl txNum a k).evs.getLast?, e.2 = 0x14) := by
  rw [fillBlock_eq]
  dsimp only
  refine ⟨fillGo_sent_le codes txNum a k, ?_, ?_⟩
  · constructor
    · intro hsent e he he2
      have hsat : (fillGo codes txNum a k).sat = false := by
        cases hx : (fillGo codes txNum a k).sat
        · rfl
        · have := fillGo_sent_lt_of_sat codes txNum a k hx
          omega
      have : (fillGo codes txNum a k).sat = true :=
        (fillGo_sat_iff codes txNum a k).mpr ⟨e, he, he2⟩
      rw [hsat] at this
      exact Bool.false_ne_true this
    · intro hall
      have hsat : (fillGo codes txNum a k).sat = false := by
        cases hx : (fillGo codes txNum a k).sat
        · rfl
        · rcases (fillGo_sat_iff codes txNum a k).mp hx with ⟨e, he, he2⟩
          exact absurd he2 (hall e he)
      exact fillGo_sent_eq_of_not_sat codes txNum a k hsat
  · intro hsat
    have hlen := fillGo_len codes txNum a k
    rw [hsat, if_pos rfl] at hlen
    exact ⟨hlen.symm, fillGo_sent_lt_of_sat codes txNum a k hsat,
      fillGo_last_of_sat codes txNum a k hsat⟩

/-- Response-code stream rejecting the second broadcast with the
mempool-saturation code and accepting every other one. -/
def codesW2 : Nat → Nat := fun j => if j = 1 then 0x14 else 0

theorem C2_fillBlock_sent_witness :
    (fillBlock codesW2 plW 5 0 0).sent + 1 = (fillBlock codesW2 plW 5 0 0).evs.length
    ∧ (fillBlock codesW2 plW 5 0 0).sent < 5
    ∧ ∀ e ∈ (fillBlock codesW2 plW 5 0 0).evs.getLast?, e.2 = 0x14 :=
  (C2_fillBlock_sent codesW2 plW 5 0 0).2.2 (by decide)

/-- Claim C3: at the start of every loop iteration, when the queried
height differs from targetHeight - 1 exactly one drift warning is
logged and the height filled this iteration is the observed height plus
one; when the queried height equals targetHeight - 1 no drift warning
is logged and the previously computed target height is used
unchanged. -/
theorem C3_drift_correction (codes : Nat → Nat) (pl : Payload) (txNum : Nat)
    (obs : Nat → Int) (btime : Int → Int) (s : LoopState) :
    (obs s.i ≠ s.targetHeight - 1 →
        (stepBlock codes pl txNum obs btime s).driftWarns = s.driftWarns + 1
        ∧ (stepBlock codes pl txNum obs btime s).heights = s.heights ++ [obs s.i + 1])
    ∧ (obs s.i = s.targetHeight - 1 →
        (stepBlock codes pl txNum obs btime s).driftWarns = s.driftWarns
        ∧ (stepBlock codes pl txNum obs btime s).heights = s.heights ++ [s.targetHeight]) := by
  have hdw : (stepBlock codes pl txNum obs btime s).driftWarns
      = (if obs s.i ≠ s.targetHeight - 1 then s.driftWarns + 1 else s.driftWarns) := rfl
  have hht : (stepBlock codes pl txNum obs btime s).heights
      = s.heights ++ [if obs s.i ≠ s.targetHeight - 1 then obs s.i + 1 else s.targetHeight] :=
    rfl
  constructor
  · intro h
    rw [hdw, hht, if_pos h, if_pos h]
    exact ⟨rfl, rfl⟩
  · intro h
    rw [hdw, hht, if_neg (fun hcon => hcon h), if_neg (fun hcon => hcon h)]
    exact ⟨rfl, rfl⟩

theorem C3_drift_correction_witness :
    ((stepBlock (fun _ => 0) plW 1 (fun _ => 20) (fun _ => 0) (initState 10 0)).driftWarns
        = (initState 10 0).driftWarns + 1
      ∧ (stepBlock (fun _ => 0) plW 1 (fun _ => 20) (fun _ => 0) (initState 10 0)).heights
        = (initState 10 0).heights ++ [(20 : Int) + 1])
    ∧ ((stepBlock (fun _ => 0) plW 1 (fun _ => 9) (fun _ => 0) (initState 10 0)).driftWarns
        = (initState 10 0).driftWarns
      ∧ (stepBlock (fun _ => 0) plW 1 (fun _ => 9) (fun _ => 0) (initState 10 0)).heights
        = (initState 10 0).heights ++ [(10 : Int)]) :=
  ⟨(C3_drift_correction (fun _ => 0) plW 1 (fun _ => 20) (fun _ => 0) (initState 10 0)).1
      (by decide),
    (C3_drift_correction (fun _ => 0) plW 1 (fun _ => 9) (fun _ => 0) (initState 10 0)).2
      (by decide)⟩

theorem fillGo_codes_congr (codes codes2 : Nat → Nat)
    (h : ∀ j, codes j = 0x14 ↔ codes2 j = 0x14) :
    ∀ b a k : Nat,
      (fillGo codes b a k).evs.map Prod.fst = (fillGo codes2 b a k).evs.map Prod.fst
      ∧ (fillGo codes b a k).accSeq = (fillGo codes2 b a k).accSeq
      ∧ (fillGo codes b a k).k = (fillGo codes2 b a k).k
      ∧ (fillGo codes b a k).sent = (fillGo codes2 b a k).sent
      ∧ (fillGo codes b a k).sat = (fillGo codes2 b a k).sat
      ∧ (fillGo codes b a k).warns = (fillGo codes2 b a k).warns := by
  intro b
  induction b with
  | zero =>
    intro a k
    rw [fillGo_zero, fillGo_zero]
    exact ⟨rfl, rfl, rfl, rfl, rfl, rfl⟩
  | succ b ih =>
    intro a k
    by_cases hc : codes k = 0x14
    · have hc2 : codes2 k = 0x14 := (h k).mp hc
      rw [fillGo_succ_sat codes b a k hc, fillGo_succ_sat codes2 b a k hc2]
      exact ⟨rfl, rfl, rfl, rfl, rfl, rfl⟩
    · have hc2 : codes2 k ≠ 0x14 := fun hx => hc ((h k).mpr hx)
      rw [fillGo_succ_cont codes b a k hc, fillGo_succ_cont codes2 b a k hc2]
      obtain ⟨he, ha2, hk2, hs, hsat, hw⟩ := ih (wrapAdd1 a) (k + 1)
      dsimp only
      refine ⟨?_, ha2, by rw [hk2], by rw [hs], hsat, hw⟩
      simp only [List.map_cons, he]

/-- Claim C4: only the mempool-saturation code 0x14 is handled
specially by the fill loop.  Replacing every response code by any other
code on the same side of the 0x14 test (zero or any other non-zero
code) leaves the control flow unchanged: the same sequence numbers are
signed in the same order, the same broadcasts count as sent, the
sequence is not rolled back, no extra warning is logged, and the block
keeps filling. -/
theorem C4_only_code_0x14_special (pl : Payload) (codes codes2 : Nat → Nat)
    (h : ∀ j, codes j = 0x14 ↔ codes2 j = 0x14) (b a k : Nat) :
    (fillBlock codes pl b a k).evs.map Prod.fst
        = (fillBlock codes2 pl b a k).evs.map Prod.fst
    ∧ (fillBlock codes pl b a k).accSeq = (fillBlock codes2 pl b a k).accSeq
    ∧ (fillBlock codes pl b a k).sent = (fillBlock codes2 pl b a k).sent
    ∧ (fillBlock codes pl b a k).sat = (fillBlock codes2 pl b a k).sat
    ∧ (fillBlock codes pl b a k).warns = (fillBlock codes2 pl b a k).warns
    ∧ (fillBlock codes pl b a k).payloads = (fillBlock codes2 pl b a k).payloads := by
  rw [fillBlock_eq codes pl b a k, fillBlock_eq codes2 pl b a k]
  obtain ⟨he, ha2, hk2, hs, hsat, hw⟩ := fillGo_codes_congr codes codes2 h b a k
  exact ⟨he, ha2, hs, hsat, hw, rfl⟩

/-- Response-code stream answering every broadcast with the non-zero,
non-saturation application code 5. -/
def codesAll5 : Nat → Nat := fun _ => 5

/-- Response-code stream answering every broadcast with code 0. -/
def codesAll0 : Nat → Nat := fun _ => 0

theorem C4_only_code_0x14_special_witness :
    (fillBlock codesAll5 plW 3 0 0).evs.map Prod.fst
        = (fillBlock codesAll0 plW 3 0 0).evs.map Prod.fst
    ∧ (fillBlock codesAll5 plW 3 0 0).accSeq = (fillBlock codesAll0 plW 3 0 0).accSeq
    ∧ (fillBlock codesAll5 plW 3 0 0).sent = (fillBlock codesAll0 plW 3 0 0).sent
    ∧ (fillBlock codesAll5 plW 3 0 0).sat = (fillBlock codesAll0 plW 3 0 0).sat
    ∧ (fillBlock codesAll5 plW 3 0 0).warns = (fillBlock codesAll0 plW 3 0 0).warns
    ∧ (fillBlock codesAll5 plW 3 0 0).payloads = (fillBlock codesAll0 plW 3 0 0).payloads :=
  C4_only_code_0x14_special plW codesAll5 codesAll0
    (by intro j; unfold codesAll5 codesAll0; decide) 3 0 0

/-- Observed heights that drive one drift correction when the loop
starts at target height 10: iteration 0 sees the matching height 9,
iteration 1 sees height 20 instead of 10. -/
def obsDrift : Nat → Int := fun i => if i = 0 then 9 else 20

/-- Claim C5 counterexample: in a two-iteration run whose second
iteration hits a height-drift correction, the block-time history ends
the second iteration holding two timestamps (the stale one of height 10
and the fresh one of height 21), refuting the claim that at most one
historical timestamp is retained in every execution including those
with drift corrections. -/
theorem C5_blockTimes_cex :
    ¬ (runLoop codesAll0 plW 0 obsDrift (fun _ => 0) 2 (initState 10 0)).blockTimes.length ≤ 1 := by
  decide

theorem stepBlock_blockTimes (codes : Nat → Nat) (pl : Payload) (txNum : Nat)
    (obs : Nat → Int) (btime : Int → Int) (s : LoopState)
    (h : obs s.i = s.targetHeight - 1) :
    (stepBlock codes pl txNum obs btime s).blockTimes
      = insertA s.targetHeight (btime s.targetHeight)
          (match lookupA (s.targetHeight - 1) s.blockTimes with
            | some _ => eraseA (s.targetHeight - 1) s.blockTimes
            | none => s.blockTimes)
    ∧ (stepBlock codes pl txNum obs btime s).targetHeight = s.targetHeight + 1 := by
  have ht : (if obs s.i ≠ s.targetHeight - 1 then obs s.i + 1 else s.targetHeight)
      = s.targetHeight := if_neg (fun hc => hc h)
  constructor
  · show insertA (if obs s.i ≠ s.targetHeight - 1 then obs s.i + 1 else s.targetHeight)
        (btime (if obs s.i ≠ s.targetHeight - 1 then obs s.i + 1 else s.targetHeight))
        (match lookupA ((if obs s.i ≠ s.targetHeight - 1 then obs s.i + 1 else s.targetHeight) - 1)
            s.blockTimes with
          | some _ =>
            eraseA ((if obs s.i ≠ s.targetHeight - 1 then obs s.i + 1 else s.targetHeight) - 1)
              s.blockTimes
          | none => s.blockTimes) = _
    rw [ht]
  · show (if obs s.i ≠ s.targetHeight - 1 then obs s.i + 1 else s.targetHeight) + 1 = _
    rw [ht]

theorem runLoop_blockTimes_inv (codes : Nat → Nat) (pl : Payload) (txNum : Nat)
    (obs : Nat → Int) (btime : Int → Int) (t0 : Int) (a0 : Nat) :
    ∀ n : Nat,
      (∀ m, m < n →
        obs (runLoop codes pl txNum obs btime m (initState t0 a0)).i
          = (runLoop codes pl txNum obs btime m (initState t0 a0)).targetHeight - 1) →
      (runLoop codes pl txNum obs btime n (initState t0 a0)).blockTimes = []
      ∨ ∃ v, (runLoop codes pl txNum obs btime n (initState t0 a0)).blockTimes
          = [((runLoop codes pl txNum obs btime n (initState t0 a0)).targetHeight - 1, v)] := by
  intro n
  induction n with
  | zero => intro _; exact Or.inl rfl
  | succ n ih =>
    intro hnd
    have hd := hnd n (Nat.lt_succ_self n)
    obtain ⟨hbt, hth⟩ := stepBlock_blockTimes codes pl txNum obs btime
      (runLoop codes pl txNum obs btime n (initState t0 a0)) hd
    have hstep : runLoop codes pl txNum obs btime (n + 1) (initState t0 a0)
        = stepBlock codes pl txNum obs btime
            (runLoop codes pl txNum obs btime n (initState t0 a0)) := rfl
    rw [hstep, hbt, hth]
    rcases ih (fun m hm => hnd m (Nat.lt_succ_of_lt hm)) with h | ⟨v, h⟩
    · rw [h]
      refine Or.inr ⟨btime (runLoop codes pl txNum obs btime n (initState t0 a0)).targetHeight, ?_⟩
      simp [insertA, eraseA, lookupA, Int.add_sub_cancel]
    · rw [h]
      refine Or.inr ⟨btime (runLoop codes pl txNum obs btime n (initState t0 a0)).targetHeight, ?_⟩
      simp [insertA, eraseA, lookupA, Int.add_sub_cancel]

/-- Claim C5 (amended): after every iteration of a send loop in which
no height-drift correction has occurred so far, the block-time history
retains at most one timestamp.  The original claim extends this bound
to executions with drift corrections; that extension is refuted by
C5_blockTimes_cex, since a drift correction leaves the stale timestamp
of the abandoned target height in the map. -/
theorem C5_blockTimes_bounded (codes : Nat → Nat) (pl : Payload) (txNum : Nat)
    (obs : Nat → Int) (btime : Int → Int) (t0 : Int) (a0 : Nat) (n : Nat)
    (hnodrift : ∀ m, m < n →
      obs (runLoop codes pl txNum obs btime m (initState t0 a0)).i
        = (runLoop codes pl txNum obs btime m (initState t0 a0)).targetHeight - 1) :
    (runLoop codes pl txNum obs btime n (initState t0 a0)).blockTimes.length ≤ 1 := by
  rcases runLoop_blockTimes_inv codes pl txNum obs btime t0 a0 n hnodrift with h | ⟨v, h⟩ <;>
    rw [h] <;> simp

/-- Observed heights matching a drift-free run started at target height
10: iteration m sees height 9 + m. -/
def obsGood : Nat → Int := fun i => 9 + (i : Int)

theorem C5_blockTimes_bounded_witness :
    (runLoop codesAll0 plW 1 obsGood (fun _ => 0) 3 (initState 10 0)).blockTimes.length ≤ 1 :=
  C5_blockTimes_bounded codesAll0 plW 1 obsGood (fun _ => 0) 10 0 3 (by decide)

/-- Claim C6 counterexample: the argument string "-1" does not parse as
a non-negative integer (strconv.Atoi yields the negative value -1), yet
the command does not fail before the send loop: Atoi accepts any sign,
so the run proceeds (the counting loop then runs zero iterations). -/
theorem C6_nonneg_validation_cex :
    atoi ("-1") = some (-1)
    ∧ ¬ ((0 : Int) ≤ -1)
    ∧ exceptOk (DstChainsend [] ("osmo") ("addr") ("-1") ("1") ("1") codesAll0
        (fun _ => 9) (fun _ => 0) 0 10) = true := by
  refine ⟨by decide, by decide, by decide⟩

/-- Claim C6 (amended): the run parameters blocks, tx-num and msg-num
are validated to parse as integers via strconv.Atoi (optional sign,
decimal digits, 64-bit range): the command reaches the send loop
exactly when all three argument strings parse, and fails with an error
before the send loop otherwise; a negative value parses successfully
and is not rejected. -/
theorem C6_atoi_validation (info : List OpenChannel) (dstId dstAddr : String)
    (bs ts ms : String) (codes : Nat → Nat) (obs : Nat → Int) (btime : Int → Int)
    (a0 : Nat) (t0 : Int) :
    exceptOk (DstChainsend info dstId dstAddr bs ts ms codes obs btime a0 t0) = true
      ↔ ((atoi bs).isSome ∧ (atoi ts).isSome ∧ (atoi ms).isSome) := by
  cases hbs : atoi bs with
  | none => simp [DstChainsend, hbs, exceptOk]
  | some blocks =>
    cases hts : atoi ts with
    | none => simp [DstChainsend, hbs, hts, exceptOk]
    | some txn =>
      cases hms : atoi ms with
      | none => simp [DstChainsend, hbs, hts, hms, exceptOk]
      | some msgn => simp [DstChainsend, hbs, hts, hms, exceptOk]

theorem C6_atoi_validation_witness :
    exceptOk (DstChainsend [] ("osmo") ("addr") ("2") ("1") ("1") codesAll0
        (fun _ => 9) (fun _ => 0) 0 10) = true :=
  (C6_atoi_validation [] ("osmo") ("addr") ("2") ("1") ("1") codesAll0
      (fun _ => 9) (fun _ => 0) 0 10).mpr (by decide)

theorem findChainFlag_eq_true_iff (name : String) :
    ∀ chains : List String, findChainFlag name chains = true ↔ name ∈ chains := by
  intro chains
  induction chains with
  | nil => simp [findChainFlag]
  | cons c rest ih =>
    by_cases h : c = name
    · simp [findChainFlag, h]
    · simp only [findChainFlag, if_neg h, ih, List.mem_cons]
      constructor
      · exact Or.inr
      · rintro (h1 | h1)
        · exact absurd h1.symm h
        · exact h1

/-- Claim C7: the multi-chain command fails with an error before
spawning any task exactly when some named source or destination chain
id is absent from the configured chain list or the number of mnemonics
is smaller than the number of destination chains; otherwise it
proceeds to spawn the tasks. -/
theorem C7_muilt_validation (cfg : MuiltConfig) (srcArg dstArg : String) :
    exceptOk (IBCMuiltTransferCmd cfg srcArg dstArg) = true
      ↔ ((∀ s ∈ splitComma srcArg, s ∈ cfg.chains)
          ∧ (∀ d ∈ splitComma dstArg, d ∈ cfg.chains)
          ∧ (splitComma dstArg).length ≤ cfg.mnemonics.length) := by
  have hsrcIff : ((splitComma srcArg).all (fun s => findChainFlag s cfg.chains) = true)
      ↔ ∀ s ∈ splitComma srcArg, s ∈ cfg.chains := by
    rw [List.all_eq_true]
    constructor
    · intro h s hs
      exact (findChainFlag_eq_true_iff s cfg.chains).mp (h s hs)
    · intro h s hs
      exact (findChainFlag_eq_true_iff s cfg.chains).mpr (h s hs)
  have hdstIff : ((splitComma dstArg).all (fun d => findChainFlag d cfg.chains) = true)
      ↔ ∀ d ∈ splitComma dstArg, d ∈ cfg.chains := by
    rw [List.all_eq_true]
    constructor
    · intro h d hd
      exact (findChainFlag_eq_true_iff d cfg.chains).mp (h d hd)
    · intro h d hd
      exact (findChainFlag_eq_true_iff d cfg.chains).mpr (h d hd)
  cases hsrc : (splitComma srcArg).all (fun s => findChainFlag s cfg.chains) with
  | false =>
    have hno : ¬ ∀ s ∈ splitComma srcArg, s ∈ cfg.chains := by
      intro hall
      have := hsrcIff.mpr hall
      rw [hsrc] at this
      exact Bool.false_ne_true this
    simp [IBCMuiltTransferCmd, hsrc, exceptOk, hno]
  | true =>
    have h1 : ∀ s ∈ splitComma srcArg, s ∈ cfg.chains := hsrcIff.mp hsrc
    cases hdst : (splitComma dstArg).all (fun d => findChainFlag d cfg.chains) with
    | false =>
      have hno : ¬ ∀ d ∈ splitComma dstArg, d ∈ cfg.chains := by
        intro hall
        have := hdstIff.mpr hall
        rw [hdst] at this
        exact Bool.false_ne_true this
      simp [IBCMuiltTransferCmd, hsrc, hdst, exceptOk, hno, h1]
    | true =>
      have h2 : ∀ d ∈ splitComma dstArg, d ∈ cfg.chains := hdstIff.mp hdst
      by_cases hlen : (splitComma dstArg).length > cfg.mnemonics.length
      · simp [IBCMuiltTransferCmd, hsrc, hdst, hlen, exceptOk, h1, h2]
      · have hle : (splitComma dstArg).length ≤ cfg.mnemonics.length :=
          Nat.le_of_not_lt hlen
        simp [IBCMuiltTransferCmd, hsrc, hdst, hlen, exceptOk, hle]
        exact ⟨h1, h2⟩

/-- A configuration with two chains and one mnemonic. -/
def cfgW : MuiltConfig := ⟨[("gaia"), ("osmo")], [("m1")]⟩

theorem C7_muilt_validation_witness :
    exceptOk (IBCMuiltTransferCmd cfgW ("gaia") ("osmo")) = true :=
  (C7_muilt_validation cfgW ("gaia") ("osmo")).mpr (by decide)

/-- Claim C8 counterexample: with configured chains gaia and osmo,
source chain gaia and destination list [gaia, osmo], exactly one send
loop is spawned: none for the named destination gaia (a destination
equal to the source is skipped by the subchain scan), and the loop for
osmo runs with account index 0, the mnemonic of position 0, although
osmo sits at position 1 of the destination list. -/
theorem C8_fanout_cex :
    spawnedTasks [("gaia"), ("osmo")] ("gaia") [("gaia"), ("osmo")] = [(0, ("osmo"))]
    ∧ (∀ t ∈ spawnedTasks [("gaia"), ("osmo")] ("gaia") [("gaia"), ("osmo")], t.2 ≠ ("gaia"))
    ∧ (1, ("osmo")) ∉ spawnedTasks [("gaia"), ("osmo")] ("gaia") [("gaia"), ("osmo")] := by
  refine ⟨by decide, by decide, by decide⟩

theorem scanSub_found (mainId d : String) (hne : d ≠ mainId) :
    ∀ cfgChains : List String, d ∈ cfgChains → scanSub mainId d cfgChains = some d := by
  intro cfgChains
  induction cfgChains with
  | nil => intro h; simp at h
  | cons c rest ih =>
    intro h
    by_cases hc : c = d
    · simp [scanSub, hne, hc]
    · have hmem : d ∈ rest := by
        rcases List.mem_cons.mp h with h1 | h1
        · exact absurd h1.symm hc
        · exact h1
      simp [scanSub, hne, hc, ih hmem]

theorem buildSubchains_all (cfgChains : List String) (mainId : String) :
    ∀ dstchains : List String, (∀ d ∈ dstchains, d ∈ cfgChains) →
      (∀ d ∈ dstchains, d ≠ mainId) →
      buildSubchains cfgChains mainId dstchains = dstchains := by
  intro dstchains
  induction dstchains with
  | nil => intro _ _; rfl
  | cons d rest ih =>
    intro hin hne
    have h1 := scanSub_found mainId d (hne d (List.mem_cons_self d rest)) cfgChains
      (hin d (List.mem_cons_self d rest))
    simp [buildSubchains, h1,
      ih (fun x hx => hin x (List.mem_cons_of_mem d hx))
        (fun x hx => hne x (List.mem_cons_of_mem d hx))]

/-- Claim C8 (amended): for a source chain, one send loop is spawned
per named destination chain distinct from the source chain, in the
order of the destination list; when every named destination exists in
the configuration and none equals the source, the spawned tasks are
exactly the destination list enumerated with its positions, so the
loop of the destination at position j signs with the distinct identity
of mnemonic j.  When a destination equals the source it gets no loop
and the later destinations' account indices shift down, refuted as the
original claim by C8_fanout_cex. -/
theorem C8_fanout (cfgChains : List String) (mainId : String) (dstchains : List String)
    (hin : ∀ d ∈ dstchains, d ∈ cfgChains) (hne : ∀ d ∈ dstchains, d ≠ mainId) :
    spawnedTasks cfgChains mainId dstchains = dstchains.enum := by
  unfold spawnedTasks
  rw [buildSubchains_all cfgChains mainId dstchains hin hne]

theorem C8_fanout_witness :
    spawnedTasks [("gaia"), ("osmo"), ("iris")] ("gaia") [("osmo"), ("iris")]
      = [(0, ("osmo")), (1, ("iris"))] := by
  rw [C8_fanout [("gaia"), ("osmo"), ("iris")] ("gaia") [("osmo"), ("iris")]
    (by decide) (by decide)]
  decide

/-- Claim C9 counterexample: with txNum = 2 and every broadcast
accepted, the per-block fill builds one payload yet broadcasts two
transactions, so a payload is not built per broadcast transaction: the
payload is built by the outer loop and reused by the inner broadcast
loop. -/
theorem C9_payload_per_broadcast_cex :
    (fillBlock codesAll0 plW 2 0 0).payloads.length = 1
    ∧ (fillBlock codesAll0 plW 2 0 0).evs.length = 2
    ∧ (fillBlock codesAll0 plW 2 0 0).payloads.length
        ≠ (fillBlock codesAll0 plW 2 0 0).evs.length := by
  refine ⟨by decide, by decide, by decide⟩

/-- Claim C9 (amended): the outer loop of the per-block fill builds
one payload per entry, and because the inner broadcast loop exits only
when the block is complete or through the labelled saturation break
that also leaves the outer loop, every per-block fill builds exactly
one payload when txNum is positive (reused for every broadcast of the
block) and none when txNum is zero; each payload carries the
configured messages-per-transaction count. -/
theorem C9_one_payload_per_block (codes : Nat → Nat) (pl : Payload) (txNum a k : Nat) :
    (fillBlock codes pl txNum a k).payloads = if txNum = 0 then [] else [pl] := by
  rw [fillBlock_eq]

theorem routeLookup_missing (dstId dstAddr : String) :
    ∀ info : List OpenChannel, (∀ i ∈ info, i.clientChainId ≠ dstId) →
      routeLookup dstId dstAddr info = ((""), (""), ("")) := by
  intro info
  induction info with
  | nil => intro _; rfl
  | cons i rest ih =>
    intro h
    have hne : dstId ≠ i.clientChainId :=
      fun hc => (h i (List.mem_cons_self i rest)) hc.symm
    simp [routeLookup, hne, ih (fun x hx => h x (List.mem_cons_of_mem i hx))]

theorem runLoop_payloads (codes : Nat → Nat) (pl : Payload) (txNum : Nat)
    (obs : Nat → Int) (btime : Int → Int) (t0 : Int) (a0 : Nat) :
    ∀ n : Nat, ∀ p ∈ (runLoop codes pl txNum obs btime n (initState t0 a0)).payloads,
      p = pl := by
  intro n
  induction n with
  | zero =>
    intro p hp
    simp [runLoop, initState] at hp
  | succ n ih =>
    intro p hp
    have hstep : (runLoop codes pl txNum obs btime (n + 1) (initState t0 a0)).payloads
        = (runLoop codes pl txNum obs btime n (initState t0 a0)).payloads
            ++ (fillBlock codes pl txNum
                (runLoop codes pl txNum obs btime n (initState t0 a0)).accSeq
                (runLoop codes pl txNum obs btime n (initState t0 a0)).k).payloads := rfl
    rw [hstep] at hp
    rcases List.mem_append.mp hp with h | h
    · exact ih p h
    · rw [fillBlock_eq] at h
      dsimp only at h
      by_cases htx : txNum = 0
      · rw [if_pos htx] at h
        simp at h
      · rw [if_neg htx] at h
        simpa using h

theorem fillGo_evs_ne_nil (codes : Nat → Nat) (b a k : Nat) (hb : 1 ≤ b) :
    (fillGo codes b a k).evs ≠ [] := by
  cases b with
  | zero => omega
  | succ b =>
    by_cases h : codes k = 0x14
    · rw [fillGo_succ_sat codes b a k h]
      simp
    · rw [fillGo_succ_cont codes b a k h]
      simp

theorem runLoop_evs_ne_nil (codes : Nat → Nat) (pl : Payload) (txNum : Nat)
    (obs : Nat → Int) (btime : Int → Int) (t0 : Int) (a0 : Nat) (n : Nat)
    (hn : 1 ≤ n) (htx : 1 ≤ txNum) :
    (runLoop codes pl txNum obs btime n (initState t0 a0)).evs ≠ [] := by
  cases n with
  | zero => omega
  | succ n =>
    have hstep : (runLoop codes pl txNum obs btime (n + 1) (initState t0 a0)).evs
        = (runLoop codes pl txNum obs btime n (initState t0 a0)).evs
            ++ (fillBlock codes pl txNum
                (runLoop codes pl txNum obs btime n (initState t0 a0)).accSeq
                (runLoop codes pl txNum obs btime n (initState t0 a0)).k).evs := rfl
    rw [hstep]
    have hfe : (fillBlock codes pl txNum
        (runLoop codes pl txNum obs btime n (initState t0 a0)).accSeq
        (runLoop codes pl txNum obs btime n (initState t0 a0)).k).evs ≠ [] := by
      rw [fillBlock_eq]
      exact fillGo_evs_ne_nil codes txNum _ _ htx
    intro hcon
    exact hfe (List.append_eq_nil.mp hcon).2

/-- Claim C10: when the destination chain has no routing-table entry
whose client chain id equals the destination's chain id, the
destination's send loop does not fail: the source port, source channel
and receiver keep their zero value, the empty string, and - given
parsable run parameters with at least one block and one transaction -
the run completes, every payload it builds and signs carries the three
empty strings, and it still broadcasts transactions. -/
theorem C10_missing_route (info : List OpenChannel) (dstId dstAddr : String)
    (bs ts ms : String) (codes : Nat → Nat) (obs : Nat → Int) (btime : Int → Int)
    (a0 : Nat) (t0 : Int) (blocks txNum msgNum : Int)
    (hroute : ∀ i ∈ info, i.clientChainId ≠ dstId)
    (hbs : atoi bs = some blocks) (hts : atoi ts = some txNum) (hms : atoi ms = some msgNum)
    (hb1 : 1 ≤ blocks) (ht1 : 1 ≤ txNum) :
    ∃ s : LoopState,
      DstChainsend info dstId dstAddr bs ts ms codes obs btime a0 t0 = Except.ok s
      ∧ (∀ p ∈ s.payloads, p = ⟨(""), (""), (""), msgNum⟩)
      ∧ s.evs ≠ [] := by
  have hr := routeLookup_missing dstId dstAddr info hroute
  refine ⟨runLoop codes ⟨(""), (""), (""), msgNum⟩ txNum.toNat obs btime blocks.toNat
      (initState t0 a0), ?_, ?_, ?_⟩
  · simp [DstChainsend, hbs, hts, hms, hr]
  · exact runLoop_payloads codes ⟨(""), (""), (""), msgNum⟩ txNum.toNat obs btime t0 a0
      blocks.toNat
  · exact runLoop_evs_ne_nil codes ⟨(""), (""), (""), msgNum⟩ txNum.toNat obs btime t0 a0
      blocks.toNat (by omega) (by omega)

theorem C10_missing_route_witness :
    ∃ s : LoopState,
      DstChainsend [⟨("iris"), ("channel-3")⟩] ("osmo") ("addr") ("1") ("1") ("2")
          codesAll0 (fun _ => 9) (fun _ => 0) 0 10 = Except.ok s
      ∧ (∀ p ∈ s.payloads, p = ⟨(""), (""), (""), 2⟩)
      ∧ s.evs ≠ [] :=
  C10_missing_route [⟨("iris"), ("channel-3")⟩] ("osmo") ("addr") ("1") ("1") ("2")
    codesAll0 (fun _ => 9) (fun _ => 0) 0 10 1 1 2 (by decide) (by decide) (by decide)
    (by decide) (by decide) (by decide)

end IBCTester
